import Mathlib

/-!
Shallow embedding of `tpot2/search_spaces/pipelines/dynamic_linear.py`
(`DynamicLinearPipelineIndividual` / `DynamicLinearPipeline`).

Conventions of the embedding:
* A numpy `Generator` is modelled as `Rng`: an explicit stream of naturals
  with a cursor.  `rng.integers(lo, hi)` (half-open) becomes
  `lo + draw % (hi - lo)`; the coin `rng.random() < 0.5` becomes a parity
  test on a draw.
* Every routine of the source begins with `rng = np.random.default_rng()`,
  which discards the passed-in generator and draws fresh OS entropy.  Each
  embedded routine therefore takes both the caller's `rng` parameter
  (unused, exactly as in the source) and an `entropy` stream standing for
  the fresh generator the source constructs internally.
* Python `Step` objects are heap references: `pipeline : List Nat` holds
  references into a `Heap`/store mapping references to the opaque internal
  step state `β`.  The external collaborators (`search_space.generate`,
  `Step.mutate`, `Step.crossover`) are function parameters.
* Fallible operations return `Except CxErr`; a Python `IndexError` on list
  indexing is `CxErr.outOfRange`, a numpy sampling `ValueError` is
  `CxErr.valueError`.  State is returned alongside the error because the
  Python objects persist after an exception.
-/

/-- An explicit pseudo-random stream: the only source of randomness in the
embedding.  `stream` is the infinite tape of raw draws, `idx` the cursor. -/
structure Rng where
  stream : Nat → Nat
  idx : Nat

/-- Draw one raw natural from the stream. -/
def Rng.next (r : Rng) : Nat × Rng :=
  (r.stream r.idx, ⟨r.stream, r.idx + 1⟩)

/-- `rng.integers(lo, hi)`: uniform draw from the half-open interval
`[lo, hi)`, modelled as `lo + draw % (hi - lo)`. -/
def Rng.integers (r : Rng) (lo hi : Nat) : Nat × Rng :=
  let t := r.next
  (lo + t.1 % (hi - lo), t.2)

/-- A heap of step objects: `mem` maps references to internal step state,
`next` is the next fresh reference. -/
structure Heap (β : Type) where
  mem : Nat → β
  next : Nat

/-- `self.search_space.generate(rng)`: the external collaborator `g`
produces a fresh step state, which is allocated at a fresh reference. -/
def allocStep {β : Type} (g : Rng → β × Rng) (h : Heap β) (r : Rng) :
    Nat × Heap β × Rng :=
  let u := g r
  (h.next, ⟨fun i => if i = h.next then u.1 else h.mem i, h.next + 1⟩, u.2)

/-- The generation loop of `_generate_pipeline`: `n` calls to
`search_space.generate(rng)`, appending each produced step. -/
def genSteps {β : Type} (g : Rng → β × Rng) :
    Nat → Heap β → Rng → List Nat × Heap β × Rng
  | 0, h, r => ([], h, r)
  | n + 1, h, r =>
    let a := allocStep g h r
    let rest := genSteps g n a.2.1 a.2.2
    (a.1 :: rest.1, rest.2.1, rest.2.2)

/-- `_generate_pipeline(self, rng)`: the source discards the `rng`
parameter (`rng = np.random.default_rng()`), samples
`length = rng.integers(min_length, max_length)`, clamps it with
`length = min(length, 3)`, and generates that many steps. -/
def generatePipeline {β : Type} (g : Rng → β × Rng) (minLength maxLength : Nat)
    (h : Heap β) (rng entropy : Rng) : List Nat × Heap β × Rng :=
  let t := entropy.integers minLength maxLength
  genSteps g (min t.1 3) h t.2

/-- `DynamicLinearPipelineIndividual.__init__`: sets `min_length = 1`,
stores `max_length`, and builds `self.pipeline = self._generate_pipeline(rng)`
(whose body discards that rng again in favour of fresh entropy). -/
def mkIndividual {β : Type} (g : Rng → β × Rng) (maxLength : Nat)
    (h : Heap β) (rng entropy : Rng) : List Nat × Heap β × Rng :=
  generatePipeline g 1 maxLength h rng entropy

/-- Concrete stub search space for witnesses: the step state is the raw
draw consumed from the generator. -/
def natGen (r : Rng) : Nat × Rng := r.next

/-- A constant entropy stream with every raw draw equal to `v`. -/
def rngConst (v : Nat) : Rng := ⟨fun _ => v, 0⟩

/-- The empty heap over `Nat` step states. -/
def heap0 : Heap Nat := ⟨fun _ => 0, 0⟩

/-- The three mutation operators of the suite. -/
inductive MutOp
  | remove
  | add
  | stepOp
deriving DecidableEq

/-- The legal-operator list built by `mutate`: append `_mutate_remove_node`
iff `len(pipeline) > min_length`, append `_mutate_add_node` iff
`len(pipeline) < max_length`, always append `_mutate_step`. -/
def mutateOptions (len minLength maxLength : Nat) : List MutOp :=
  (if minLength < len then [MutOp.remove] else []) ++
    ((if len < maxLength then [MutOp.add] else []) ++ [MutOp.stepOp])

/-- Python `list.insert(idx, x)`: insert before `idx`, clamping an index
past the end to an append (never reached here: the sampled index is in
range). -/
def pyInsert {α : Type} (x : α) : Nat → List α → List α
  | 0, l => x :: l
  | _ + 1, [] => [x]
  | n + 1, a :: l => a :: pyInsert x n l

/-- Python `list.pop(idx)` restricted to its result list: delete the
element at `idx` (out-of-range never reached here: the sampled index is in
range). -/
def pyPop {α : Type} : Nat → List α → List α
  | _, [] => []
  | 0, _ :: l => l
  | n + 1, a :: l => a :: pyPop n l

/-- `_mutate_add_node(self, rng)`: discard the rng parameter, generate one
new step from the search space, draw `idx = rng.integers(len(pipeline))`
and insert the new step before `idx`. -/
def mutateAddNode {β : Type} (g : Rng → β × Rng) (h : Heap β)
    (pipeline : List Nat) (rng entropy : Rng) : List Nat × Heap β :=
  let a := allocStep g h entropy
  let t := a.2.2.next
  (pyInsert a.1 (t.1 % pipeline.length) pipeline, a.2.1)

/-- `_mutate_remove_node(self, rng)`: discard the rng parameter, draw
`idx = rng.integers(len(pipeline))` and pop that element. -/
def mutateRemoveNode (pipeline : List Nat) (rng entropy : Rng) : List Nat :=
  let t := entropy.next
  pyPop (t.1 % pipeline.length) pipeline

/-- `_mutate_step(self, rng)`: discard the rng parameter, pick
`step = rng.choice(self.pipeline)` and delegate to `step.mutate(rng)`,
which mutates that step's internal state in the heap (the pipeline list
itself is untouched). -/
def mutateStepOp {β : Type} (sm : β → Rng → β × Rng) (h : Heap β)
    (pipeline : List Nat) (rng entropy : Rng) : Heap β :=
  let t := entropy.next
  let ref := pipeline.getD (t.1 % pipeline.length) 0
  let u := sm (h.mem ref) t.2
  ⟨fun i => if i = ref then u.1 else h.mem i, h.next⟩

/-- `mutate(self, rng)`: discard the rng parameter, build the legal
operator list, pick one uniformly (`rng.choice(options)`), and invoke it
with the same internally constructed generator (which the operator's body
then discards again, here `eOp`). -/
def mutateDispatch {β : Type} (g : Rng → β × Rng) (sm : β → Rng → β × Rng)
    (minLength maxLength : Nat) (h : Heap β) (pipeline : List Nat)
    (rng entropy eOp : Rng) : List Nat × Heap β :=
  let opts := mutateOptions pipeline.length minLength maxLength
  let t := entropy.next
  match opts.getD (t.1 % opts.length) MutOp.stepOp with
  | MutOp.remove => (mutateRemoveNode pipeline t.2 eOp, h)
  | MutOp.add => mutateAddNode g h pipeline t.2 eOp
  | MutOp.stepOp => (pipeline, mutateStepOp sm h pipeline t.2 eOp)

/-- Errors the crossover suite can raise: a Python `IndexError` carrying
the offending index, or a numpy sampling `ValueError`. -/
inductive CxErr
  | outOfRange (idx : Nat)
  | valueError
deriving DecidableEq

/-- The joint state of a crossover: the shared step heap (no allocation
happens during crossover, so only the `mem` part is needed), plus the two
pipelines of step references. -/
structure CxState (β : Type) where
  store : Nat → β
  selfP : List Nat
  otherP : List Nat

/-- `rng.shuffle` on a two-element list, following the Fisher–Yates pass
numpy performs: one draw `j ∈ [0, 2)`; `j = 0` swaps the two entries,
`j = 1` leaves them in place. -/
def Rng.shuffle2 {α : Type} (r : Rng) (a b : α) : (α × α) × Rng :=
  let t := r.next
  if t.1 % 2 = 0 then ((b, a), t.2) else ((a, b), t.2)

/-- The two strategies `_crossover` dispatches over, in the order the
source lists them: `_crossover_swap_random_steps`, then
`_crossover_inner_step`. -/
inductive CxStrat
  | swapRandom
  | innerStep
deriving DecidableEq

/-- Sampling without replacement from a pool of available values: each
draw removes the chosen element from the pool. -/
def drawDistinct : List Nat → Nat → Rng → List Nat × Rng
  | _, 0, r => ([], r)
  | avail, n + 1, r =>
    let t := r.next
    let i := t.1 % avail.length
    let rest := drawDistinct (avail.eraseIdx i) n t.2
    (avail.getD i 0 :: rest.1, rest.2)

/-- `rng.choice(k, n, replace=False)`: `n` distinct indices from
`[0, k)`; numpy raises `ValueError` when `n > k` (including an empty
range). -/
def choiceNoReplace (k n : Nat) (r : Rng) : Except CxErr (List Nat) × Rng :=
  if n ≤ k then
    let u := drawDistinct (List.range k) n r
    (Except.ok u.1, u.2)
  else (Except.error CxErr.valueError, r)

/-- The exchange loop of `_crossover_swap_random_steps`: for each paired
`(self_idx, other_idx)` in order, swap the step references at those
positions between the two pipelines. -/
def swapPairs : List (Nat × Nat) → List Nat → List Nat → List Nat × List Nat
  | [], s, o => (s, o)
  | p :: rest, s, o =>
    swapPairs rest (s.set p.1 (o.getD p.2 0)) (o.set p.2 (s.getD p.1 0))

/-- `_crossover_swap_random_steps(self, other, rng)`: discard the rng
parameter; `max_steps = max(int(min(len(self), len(other)) / 2), 1)`;
`n = 1` if `max_steps == 1`, else `n = rng.integers(1, max_steps)`; draw
`n` distinct other-indices, then `n` distinct self-indices, exchange the
paired positions, and return `True`. -/
def swapRandomSteps {β : Type} (st : CxState β) (rng entropy : Rng) :
    Except CxErr Bool × CxState β :=
  let maxSteps := max (min st.selfP.length st.otherP.length / 2) 1
  let p := if maxSteps = 1 then ((1 : Nat), entropy)
    else entropy.integers 1 maxSteps
  let q1 := choiceNoReplace st.otherP.length p.1 p.2
  match q1.1 with
  | Except.error e => (Except.error e, st)
  | Except.ok otherIdxs =>
    let q2 := choiceNoReplace st.selfP.length p.1 q1.2
    match q2.1 with
    | Except.error e => (Except.error e, st)
    | Except.ok selfIdxs =>
      let sw := swapPairs (selfIdxs.zip otherIdxs) st.selfP st.otherP
      (Except.ok true, ⟨st.store, sw.1, sw.2⟩)

/-- The loop of `_crossover_inner_step`, processing indices
`i, i+1, …, i+n-1` of `self.pipeline`: at each index draw the coin
`rng.random() < 0.5`; when it fires, look up `self.pipeline[idx]` then
`other.pipeline[idx]` (an out-of-range access raises `IndexError` there)
and delegate to the steps' own `crossover`, which updates both step states
in the store and reports success. -/
def innerLoop {β : Type} (cx : β → β → Rng → Bool × β × β × Rng) :
    Nat → Nat → Bool → CxState β → Rng → Except CxErr Bool × CxState β × Rng
  | _, 0, flag, st, r => (Except.ok flag, st, r)
  | i, n + 1, flag, st, r =>
    let t := r.next
    if t.1 % 2 = 0 then
      match st.selfP[i]? with
      | none => (Except.error (CxErr.outOfRange i), st, t.2)
      | some sref =>
        match st.otherP[i]? with
        | none => (Except.error (CxErr.outOfRange i), st, t.2)
        | some oref =>
          let u := cx (st.store sref) (st.store oref) t.2
          innerLoop cx (i + 1) n (flag || u.1)
            ⟨fun j => if j = sref then u.2.1
              else if j = oref then u.2.2.1 else st.store j,
              st.selfP, st.otherP⟩ u.2.2.2
    else innerLoop cx (i + 1) n flag st t.2

/-- `_crossover_inner_step(self, other, rng)`: discard the rng parameter
and run the loop over `range(len(self.pipeline))` with the success flag
initially `False`. -/
def innerStepCx {β : Type} (cx : β → β → Rng → Bool × β × β × Rng)
    (st : CxState β) (rng entropy : Rng) : Except CxErr Bool × CxState β :=
  let t := innerLoop cx 0 st.selfP.length false st entropy
  (t.1, t.2.1)

/-- Scanning coin draws for indices `i, …, i+n-1`: the first index whose
coin fires, if any, together with the generator state reached. -/
def firstFire : Nat → Nat → Rng → Option Nat × Rng
  | _, 0, r => (none, r)
  | i, n + 1, r =>
    let t := r.next
    if t.1 % 2 = 0 then (some i, t.2) else firstFire (i + 1) n t.2

/-- Run one crossover strategy, mirroring the call `cx_func(other, rng)`
(each strategy body then discards that rng for its own fresh one). -/
def runStrat {β : Type} (cx : β → β → Rng → Bool × β × β × Rng)
    (s : CxStrat) (st : CxState β) (rng entropy : Rng) :
    Except CxErr Bool × CxState β :=
  match s with
  | CxStrat.swapRandom => swapRandomSteps st rng entropy
  | CxStrat.innerStep => innerStepCx cx st rng entropy

/-- `_crossover(self, other, rng)`: discard the rng parameter, shuffle the
two-strategy list, try each in the shuffled order, return `True` on the
first success, `False` if neither succeeds; an exception raised by a
strategy propagates.  `e0` is the fresh generator of `_crossover` itself,
`e1`/`e2` the fresh generators of the first/second strategy bodies. -/
def crossover {β : Type} (cx : β → β → Rng → Bool × β × β × Rng)
    (st : CxState β) (rng e0 e1 e2 : Rng) : Except CxErr Bool × CxState β :=
  let t := e0.shuffle2 CxStrat.swapRandom CxStrat.innerStep
  let first := runStrat cx t.1.1 st t.2 e1
  match first with
  | (Except.ok true, st1) => (Except.ok true, st1)
  | (Except.ok false, st1) => runStrat cx t.1.2 st1 t.2 e2
  | (Except.error err, st1) => (Except.error err, st1)

/-- Modelled from the spec: `TupleIndex` (from `tpot2/search_spaces/
tuple_index.py`, not present under `src/`) wraps the tuple of identity
tokens as an order-sensitive, hashable, comparable composite key; equality
is structural equality of the wrapped sequence. -/
structure TupleIndex (υ : Type) where
  elems : List υ
deriving DecidableEq

/-- One entry of the identity tuple: either the fixed discriminator string
or a step's own `unique_id()` token. -/
inductive UTok (υ : Type)
  | disc (s : String)
  | step (u : υ)
deriving DecidableEq

/-- `unique_id(self)`: the fixed discriminator `"DynamicLinearPipeline"`
followed by `step.unique_id()` for every step in pipeline order, wrapped
as a `TupleIndex`. -/
def uniqueId {α υ : Type} (stepUid : α → υ) (pipeline : List α) :
    TupleIndex (UTok υ) :=
  ⟨UTok.disc "DynamicLinearPipeline" ::
    pipeline.map (fun s => UTok.step (stepUid s))⟩

/-- Concrete delegated step crossover that succeeds without touching the
step states. -/
def cxId (a b : Nat) (r : Rng) : Bool × Nat × Nat × Rng := (true, a, b, r)

/-- Concrete delegated step crossover that succeeds and bumps both step
states, making internal mutation observable. -/
def cxInc (a b : Nat) (r : Rng) : Bool × Nat × Nat × Rng :=
  (true, a + 1, b + 1, r)

/-- Concrete crossover state: `self.pipeline` of length 3 against
`other.pipeline` of length 2, all step states 0. -/
def st32 : CxState Nat := ⟨fun _ => 0, [0, 1, 2], [3, 4]⟩

/-- Concrete crossover state with two singleton pipelines. -/
def st11 : CxState Nat := ⟨fun _ => 0, [0], [1]⟩

/-- Concrete crossover state with equal-length pipelines of length 2. -/
def st22 : CxState Nat := ⟨fun _ => 0, [0, 1], [2, 3]⟩

/-- Entropy stream whose raw draws are `0, 1, 0, 0, …`: the coin fires at
positions 0 and 2 but not at position 1. -/
def rngFire02 : Rng := ⟨fun i => if i = 1 then 1 else 0, 0⟩

theorem genSteps_length {β : Type} (g : Rng → β × Rng) :
    ∀ (n : Nat) (h : Heap β) (r : Rng), (genSteps g n h r).1.length = n := by
  intro n
  induction n with
  | zero => intro h r; rfl
  | succ n ih =>
    intro h r
    simp [genSteps, ih]

/-- C1: for every `max_length ≥ 2`, a freshly generated individual's
pipeline length `L` satisfies `1 ≤ L ≤ min (max_length - 1) 3`:
construction samples a length from `[min_length, max_length)`, clamps it to
at most 3, and appends exactly that many generated steps. -/
theorem mkIndividual_length_bounds {β : Type} (g : Rng → β × Rng)
    (maxLength : Nat) (h : Heap β) (rng entropy : Rng)
    (hmax : 2 ≤ maxLength) :
    1 ≤ (mkIndividual g maxLength h rng entropy).1.length ∧
      (mkIndividual g maxLength h rng entropy).1.length ≤
        min (maxLength - 1) 3 := by
  have hmod : (entropy.next.1) % (maxLength - 1) < maxLength - 1 :=
    Nat.mod_lt _ (by omega)
  have hlen : (mkIndividual g maxLength h rng entropy).1.length =
      min (1 + entropy.next.1 % (maxLength - 1)) 3 := by
    simp [mkIndividual, generatePipeline, Rng.integers, genSteps_length]
  rw [hlen]
  omega

/-- Witness for C1 at `max_length = 3` with concrete streams. -/
theorem mkIndividual_length_bounds_witness :
    1 ≤ (mkIndividual natGen 3 heap0 (rngConst 7) (rngConst 0)).1.length ∧
      (mkIndividual natGen 3 heap0 (rngConst 7) (rngConst 0)).1.length ≤
        min (3 - 1) 3 :=
  mkIndividual_length_bounds natGen 3 heap0 (rngConst 7) (rngConst 0)
    (by decide)

/-- C2 (bug demonstration): generation is not a function of the passed-in
generator.  The source discards the seeded `rng` parameter and draws from a
fresh unseeded `np.random.default_rng()`; with the caller's generator held
fixed, two runs whose internal entropy differs produce different
pipelines. -/
theorem generate_not_reproducible :
    (mkIndividual natGen 3 heap0 (rngConst 7) (rngConst 0)).1 ≠
      (mkIndividual natGen 3 heap0 (rngConst 7) (rngConst 1)).1 := by
  decide

theorem pyInsert_length {α : Type} (x : α) :
    ∀ (n : Nat) (l : List α), (pyInsert x n l).length = l.length + 1 := by
  intro n
  induction n with
  | zero => intro l; cases l <;> rfl
  | succ n ih =>
    intro l
    cases l with
    | nil => rfl
    | cons a l => simp [pyInsert, ih]

theorem pyPop_length {α : Type} :
    ∀ (l : List α) (n : Nat), n < l.length →
      (pyPop n l).length = l.length - 1 := by
  intro l
  induction l with
  | nil => intro n hn; simp at hn
  | cons a l ih =>
    intro n hn
    cases n with
    | zero => rfl
    | succ n =>
      have hn' : n < l.length := by simpa using hn
      simp [pyPop, ih n hn']
      omega

theorem getD_mem {α : Type} (l : List α) (d : α) (i : Nat)
    (h : i < l.length) : l.getD i d ∈ l := by
  rw [List.getD_eq_getElem l d h]
  exact List.getElem_mem h

theorem remove_mem_mutateOptions (len minLength maxLength : Nat) :
    MutOp.remove ∈ mutateOptions len minLength maxLength ↔ minLength < len := by
  by_cases h1 : minLength < len <;> by_cases h2 : len < maxLength <;>
    simp [mutateOptions, h1, h2]

theorem add_mem_mutateOptions (len minLength maxLength : Nat) :
    MutOp.add ∈ mutateOptions len minLength maxLength ↔ len < maxLength := by
  by_cases h1 : minLength < len <;> by_cases h2 : len < maxLength <;>
    simp [mutateOptions, h1, h2]

theorem stepOp_mem_mutateOptions (len minLength maxLength : Nat) :
    MutOp.stepOp ∈ mutateOptions len minLength maxLength := by
  by_cases h1 : minLength < len <;> by_cases h2 : len < maxLength <;>
    simp [mutateOptions, h1, h2]

theorem mutateOptions_length_pos (len minLength maxLength : Nat) :
    0 < (mutateOptions len minLength maxLength).length := by
  by_cases h1 : minLength < len <;> by_cases h2 : len < maxLength <;>
    simp [mutateOptions, h1, h2]

/-- C3: the `mutate` dispatcher offers `remove` iff
`len(pipeline) > min_length`, offers `add` iff `len(pipeline) < max_length`,
always offers `step`, picks among the offered operators, and therefore a
pipeline satisfying `1 ≤ len ≤ max_length` before the call still satisfies
it after the call. -/
theorem mutate_dispatcher_bounds {β : Type} (g : Rng → β × Rng)
    (sm : β → Rng → β × Rng) (maxLength : Nat) (h : Heap β)
    (pipeline : List Nat) (rng entropy eOp : Rng)
    (h1 : 1 ≤ pipeline.length) (h2 : pipeline.length ≤ maxLength) :
    (MutOp.remove ∈ mutateOptions pipeline.length 1 maxLength ↔
        1 < pipeline.length) ∧
      (MutOp.add ∈ mutateOptions pipeline.length 1 maxLength ↔
        pipeline.length < maxLength) ∧
      MutOp.stepOp ∈ mutateOptions pipeline.length 1 maxLength ∧
      1 ≤ (mutateDispatch g sm 1 maxLength h pipeline rng entropy eOp).1.length ∧
      (mutateDispatch g sm 1 maxLength h pipeline rng entropy eOp).1.length ≤
        maxLength := by
  have hopts := mutateOptions_length_pos pipeline.length 1 maxLength
  have key :
      1 ≤ (mutateDispatch g sm 1 maxLength h pipeline rng entropy eOp).1.length ∧
        (mutateDispatch g sm 1 maxLength h pipeline rng entropy eOp).1.length ≤
          maxLength := by
    simp only [mutateDispatch]
    split
    · rename_i heq
      have hmem := getD_mem (mutateOptions pipeline.length 1 maxLength)
        MutOp.stepOp
        (entropy.next.1 % (mutateOptions pipeline.length 1 maxLength).length)
        (Nat.mod_lt _ hopts)
      rw [heq] at hmem
      have hlt : 1 < pipeline.length :=
        (remove_mem_mutateOptions pipeline.length 1 maxLength).mp hmem
      simp only [mutateRemoveNode]
      rw [pyPop_length pipeline _ (Nat.mod_lt _ (by omega))]
      omega
    · rename_i heq
      have hmem := getD_mem (mutateOptions pipeline.length 1 maxLength)
        MutOp.stepOp
        (entropy.next.1 % (mutateOptions pipeline.length 1 maxLength).length)
        (Nat.mod_lt _ hopts)
      rw [heq] at hmem
      have hlt : pipeline.length < maxLength :=
        (add_mem_mutateOptions pipeline.length 1 maxLength).mp hmem
      simp only [mutateAddNode]
      rw [pyInsert_length]
      omega
    · simpa using ⟨h1, h2⟩
  exact ⟨remove_mem_mutateOptions pipeline.length 1 maxLength,
    add_mem_mutateOptions pipeline.length 1 maxLength,
    stepOp_mem_mutateOptions pipeline.length 1 maxLength, key.1, key.2⟩

/-- Witness for C3 at a concrete pipeline of length 2 with
`max_length = 3`. -/
theorem mutate_dispatcher_bounds_witness :
    (MutOp.remove ∈ mutateOptions ([0, 1] : List Nat).length 1 3 ↔
        1 < ([0, 1] : List Nat).length) ∧
      (MutOp.add ∈ mutateOptions ([0, 1] : List Nat).length 1 3 ↔
        ([0, 1] : List Nat).length < 3) ∧
      MutOp.stepOp ∈ mutateOptions ([0, 1] : List Nat).length 1 3 ∧
      1 ≤ (mutateDispatch natGen (fun b r => (b, r)) 1 3 heap0 [0, 1]
        (rngConst 7) (rngConst 0) (rngConst 0)).1.length ∧
      (mutateDispatch natGen (fun b r => (b, r)) 1 3 heap0 [0, 1]
        (rngConst 7) (rngConst 0) (rngConst 0)).1.length ≤ 3 :=
  mutate_dispatcher_bounds natGen (fun b r => (b, r)) 3 heap0 [0, 1]
    (rngConst 7) (rngConst 0) (rngConst 0) (by decide) (by decide)

/-- C9: `_mutate_add_node` allocates exactly one new step from the search
space, draws its insertion index from `[0, len(pipeline))` — so the index
is strictly below the current length and the new step is never appended
after the last position — inserts it there, and grows the pipeline by
exactly one. -/
theorem mutateAddNode_spec {β : Type} (g : Rng → β × Rng) (h : Heap β)
    (pipeline : List Nat) (rng entropy : Rng) (hpos : 0 < pipeline.length) :
    (mutateAddNode g h pipeline rng entropy).1.length = pipeline.length + 1 ∧
      (mutateAddNode g h pipeline rng entropy).2.next = h.next + 1 ∧
      ∃ idx, idx < pipeline.length ∧
        (mutateAddNode g h pipeline rng entropy).1 =
          pyInsert h.next idx pipeline := by
  refine ⟨?_, rfl, ?_⟩
  · simp [mutateAddNode, pyInsert_length]
  · exact ⟨(g entropy).2.next.1 % pipeline.length, Nat.mod_lt _ hpos, rfl⟩

/-- Witness for C9 on a concrete singleton pipeline. -/
theorem mutateAddNode_spec_witness :
    (mutateAddNode natGen heap0 [5] (rngConst 7) (rngConst 0)).1.length =
        ([5] : List Nat).length + 1 ∧
      (mutateAddNode natGen heap0 [5] (rngConst 7) (rngConst 0)).2.next =
        heap0.next + 1 ∧
      ∃ idx, idx < ([5] : List Nat).length ∧
        (mutateAddNode natGen heap0 [5] (rngConst 7) (rngConst 0)).1 =
          pyInsert heap0.next idx [5] :=
  mutateAddNode_spec natGen heap0 [5] (rngConst 7) (rngConst 0) (by decide)

theorem swapPairs_length_fst :
    ∀ (ps : List (Nat × Nat)) (s o : List Nat),
      (swapPairs ps s o).1.length = s.length := by
  intro ps
  induction ps with
  | nil => intro s o; rfl
  | cons p rest ih =>
    intro s o
    have h := ih (s.set p.1 (o.getD p.2 0)) (o.set p.2 (s.getD p.1 0))
    simpa [swapPairs, List.length_set] using h

theorem swapPairs_length_snd :
    ∀ (ps : List (Nat × Nat)) (s o : List Nat),
      (swapPairs ps s o).2.length = o.length := by
  intro ps
  induction ps with
  | nil => intro s o; rfl
  | cons p rest ih =>
    intro s o
    have h := ih (s.set p.1 (o.getD p.2 0)) (o.set p.2 (s.getD p.1 0))
    simpa [swapPairs, List.length_set] using h

theorem choiceNoReplace_ok (k n : Nat) (r : Rng) (h : n ≤ k) :
    choiceNoReplace k n r =
      (Except.ok (drawDistinct (List.range k) n r).1,
        (drawDistinct (List.range k) n r).2) := by
  simp [choiceNoReplace, h]

/-- C5: for non-empty pipelines, `_crossover_swap_random_steps` always
reports success, and afterwards both pipeline lengths are unchanged: the
exchange moves contents but never changes counts. -/
theorem swapRandomSteps_conserves {β : Type} (st : CxState β)
    (rng entropy : Rng) (hs : st.selfP ≠ []) (ho : st.otherP ≠ []) :
    (swapRandomSteps st rng entropy).1 = Except.ok true ∧
      (swapRandomSteps st rng entropy).2.selfP.length = st.selfP.length ∧
      (swapRandomSteps st rng entropy).2.otherP.length = st.otherP.length := by
  have hs' : 0 < st.selfP.length := List.length_pos.mpr hs
  have ho' : 0 < st.otherP.length := List.length_pos.mpr ho
  simp only [swapRandomSteps]
  by_cases hcase : max (min st.selfP.length st.otherP.length / 2) 1 = 1
  · rw [if_pos hcase]
    rw [choiceNoReplace_ok _ _ _ ho', choiceNoReplace_ok _ _ _ hs']
    exact ⟨rfl, by simp [swapPairs_length_fst], by simp [swapPairs_length_snd]⟩
  · rw [if_neg hcase]
    have hd : entropy.next.1 %
        (max (min st.selfP.length st.otherP.length / 2) 1 - 1) <
        max (min st.selfP.length st.otherP.length / 2) 1 - 1 :=
      Nat.mod_lt _ (by omega)
    have hval : (entropy.integers 1
        (max (min st.selfP.length st.otherP.length / 2) 1)).1 =
        1 + entropy.next.1 %
          (max (min st.selfP.length st.otherP.length / 2) 1 - 1) := rfl
    have hnO : (entropy.integers 1
        (max (min st.selfP.length st.otherP.length / 2) 1)).1 ≤
        st.otherP.length := by
      rw [hval]; omega
    have hnS : (entropy.integers 1
        (max (min st.selfP.length st.otherP.length / 2) 1)).1 ≤
        st.selfP.length := by
      rw [hval]; omega
    rw [choiceNoReplace_ok _ _ _ hnO, choiceNoReplace_ok _ _ _ hnS]
    exact ⟨rfl, by simp [swapPairs_length_fst], by simp [swapPairs_length_snd]⟩

/-- Witness for C5 on two singleton pipelines. -/
theorem swapRandomSteps_conserves_witness :
    (swapRandomSteps st11 (rngConst 7) (rngConst 0)).1 = Except.ok true ∧
      (swapRandomSteps st11 (rngConst 7) (rngConst 0)).2.selfP.length =
        st11.selfP.length ∧
      (swapRandomSteps st11 (rngConst 7) (rngConst 0)).2.otherP.length =
        st11.otherP.length :=
  swapRandomSteps_conserves st11 (rngConst 7) (rngConst 0) (by decide)
    (by decide)

theorem innerLoop_pipelines {β : Type} (cx : β → β → Rng → Bool × β × β × Rng) :
    ∀ (n i : Nat) (flag : Bool) (st : CxState β) (r : Rng),
      (innerLoop cx i n flag st r).2.1.selfP = st.selfP ∧
        (innerLoop cx i n flag st r).2.1.otherP = st.otherP := by
  intro n
  induction n with
  | zero => intro i flag st r; exact ⟨rfl, rfl⟩
  | succ n ih =>
    intro i flag st r
    simp only [innerLoop]
    split
    · cases hs : st.selfP[i]? with
      | none => exact ⟨rfl, rfl⟩
      | some sref =>
        cases ho : st.otherP[i]? with
        | none => exact ⟨rfl, rfl⟩
        | some oref => exact ih (i + 1) _ _ _
    · exact ih (i + 1) flag st _

theorem innerLoop_ok {β : Type} (cx : β → β → Rng → Bool × β × β × Rng) :
    ∀ (n i : Nat) (flag : Bool) (st : CxState β) (r : Rng),
      (∀ k, k < n → i + k < st.selfP.length ∧ i + k < st.otherP.length) →
      ∃ f, (innerLoop cx i n flag st r).1 = Except.ok f := by
  intro n
  induction n with
  | zero => intro i flag st r hk; exact ⟨flag, rfl⟩
  | succ n ih =>
    intro i flag st r hk
    have hi := hk 0 (Nat.succ_pos n)
    have hiS : i < st.selfP.length := by omega
    have hiO : i < st.otherP.length := by omega
    simp only [innerLoop]
    split
    · rw [List.getElem?_eq_getElem hiS, List.getElem?_eq_getElem hiO]
      exact ih (i + 1) _ _ _ (fun k hk' => by
        have := hk (k + 1) (by omega)
        constructor <;> (simp only [] ; omega))
    · exact ih (i + 1) flag st _ (fun k hk' => by
        have := hk (k + 1) (by omega)
        constructor <;> omega)

theorem innerLoop_oob {β : Type} (cx : β → β → Rng → Bool × β × β × Rng) :
    ∀ (n i : Nat) (flag : Bool) (st : CxState β) (r : Rng),
      (∀ k, k < n → st.otherP.length ≤ i + k) →
      innerLoop cx i n flag st r =
        match firstFire i n r with
        | (some j, r') => (Except.error (CxErr.outOfRange j), st, r')
        | (none, r') => (Except.ok flag, st, r') := by
  intro n
  induction n with
  | zero => intro i flag st r hk; rfl
  | succ n ih =>
    intro i flag st r hk
    have hi : st.otherP.length ≤ i := by
      have := hk 0 (Nat.succ_pos n)
      omega
    have hnone : st.otherP[i]? = none := List.getElem?_eq_none hi
    simp only [innerLoop, firstFire]
    split
    · cases hs : st.selfP[i]? with
      | none => rfl
      | some sref => rw [hnone]
    · exact ih (i + 1) flag st _ (fun k hk' => by
        have := hk (k + 1) (by omega)
        omega)

theorem innerLoop_split {β : Type} (cx : β → β → Rng → Bool × β × β × Rng) :
    ∀ (m n i : Nat) (flag : Bool) (st : CxState β) (r : Rng),
      innerLoop cx i (m + n) flag st r =
        match innerLoop cx i m flag st r with
        | (Except.ok f, st', r') => innerLoop cx (i + m) n f st' r'
        | (Except.error e, st', r') => (Except.error e, st', r') := by
  intro m
  induction m with
  | zero =>
    intro n i flag st r
    rw [Nat.zero_add]
    rfl
  | succ m ih =>
    intro n i flag st r
    have hadd : m + 1 + n = (m + n) + 1 := by omega
    rw [hadd]
    simp only [innerLoop]
    split
    · cases hs : st.selfP[i]? with
      | none => rfl
      | some sref =>
        cases ho : st.otherP[i]? with
        | none => rfl
        | some oref =>
          have h := ih n (i + 1)
            (flag || (cx (st.store sref) (st.store oref) r.next.2).1)
            ⟨fun j => if j = sref then (cx (st.store sref) (st.store oref) r.next.2).2.1
              else if j = oref then (cx (st.store sref) (st.store oref) r.next.2).2.2.1
              else st.store j, st.selfP, st.otherP⟩
            (cx (st.store sref) (st.store oref) r.next.2).2.2.2
          have hidx : i + 1 + m = i + (m + 1) := by omega
          rw [hidx] at h
          exact h
    · have h := ih n (i + 1) flag st r.next.2
      have hidx : i + 1 + m = i + (m + 1) := by omega
      rw [hidx] at h
      exact h

/-- C6 counterexample: with `self.pipeline` of length 3 and
`other.pipeline` of length 2, a run whose per-index coin never fires
(`rng.random() ≥ 0.5` at every index) completes normally with `False`
instead of failing with an out-of-range error at index 2: the claimed
unconditional failure does not hold on the code. -/
theorem innerStep_silent_skip_counterexample :
    st32.otherP.length < st32.selfP.length ∧
      (innerStepCx cxId st32 (rngConst 7) (rngConst 1)).1 = Except.ok false :=
  ⟨by decide, rfl⟩

/-- C6 (amended): when `other.pipeline` is strictly shorter than
`self.pipeline`, the loop over the first `len(other)` indices completes
normally (leaving both pipelines unchanged), and the call then fails with
`OutOfRange j` at the first out-of-range index `j` whose coin draw fires —
if no coin fires at an out-of-range index the call returns normally with
the success flag accumulated so far. -/
theorem innerStep_oob_behavior {β : Type}
    (cx : β → β → Rng → Bool × β × β × Rng) (st : CxState β) (rng e : Rng)
    (hlt : st.otherP.length < st.selfP.length) :
    ∃ f st' r',
      innerLoop cx 0 st.otherP.length false st e = (Except.ok f, st', r') ∧
      st'.selfP = st.selfP ∧ st'.otherP = st.otherP ∧
      innerStepCx cx st rng e =
        match firstFire st.otherP.length
            (st.selfP.length - st.otherP.length) r' with
        | (some j, _) => (Except.error (CxErr.outOfRange j), st')
        | (none, _) => (Except.ok f, st') := by
  obtain ⟨f, hf⟩ := innerLoop_ok cx st.otherP.length 0 false st e
    (fun k hk => ⟨by omega, by omega⟩)
  obtain ⟨hsp, hop⟩ := innerLoop_pipelines cx st.otherP.length 0 false st e
  have heq : innerLoop cx 0 st.otherP.length false st e =
      (Except.ok f, (innerLoop cx 0 st.otherP.length false st e).2.1,
        (innerLoop cx 0 st.otherP.length false st e).2.2) := by
    rw [← hf]
  refine ⟨f, (innerLoop cx 0 st.otherP.length false st e).2.1,
    (innerLoop cx 0 st.otherP.length false st e).2.2, heq, hsp, hop, ?_⟩
  have hsum : st.otherP.length + (st.selfP.length - st.otherP.length) =
      st.selfP.length := by omega
  have hsplit := innerLoop_split cx st.otherP.length
    (st.selfP.length - st.otherP.length) 0 false st e
  rw [hsum, Nat.zero_add] at hsplit
  have hoob := innerLoop_oob cx (st.selfP.length - st.otherP.length)
    st.otherP.length f (innerLoop cx 0 st.otherP.length false st e).2.1
    (innerLoop cx 0 st.otherP.length false st e).2.2
    (fun k hk => by rw [hop]; omega)
  have hstep : innerLoop cx 0 st.selfP.length false st e =
      innerLoop cx st.otherP.length (st.selfP.length - st.otherP.length) f
        (innerLoop cx 0 st.otherP.length false st e).2.1
        (innerLoop cx 0 st.otherP.length false st e).2.2 := by
    rw [hsplit, heq]
  have hfull : innerLoop cx 0 st.selfP.length false st e =
      match firstFire st.otherP.length
          (st.selfP.length - st.otherP.length)
          (innerLoop cx 0 st.otherP.length false st e).2.2 with
      | (some j, r') =>
        (Except.error (CxErr.outOfRange j),
          (innerLoop cx 0 st.otherP.length false st e).2.1, r')
      | (none, r') =>
        (Except.ok f, (innerLoop cx 0 st.otherP.length false st e).2.1, r') := by
    rw [hstep, hoob]
  show ((innerLoop cx 0 st.selfP.length false st e).1,
      (innerLoop cx 0 st.selfP.length false st e).2.1) = _
  rw [hfull]
  rcases hff : firstFire st.otherP.length
      (st.selfP.length - st.otherP.length)
      (innerLoop cx 0 st.otherP.length false st e).2.2 with ⟨oj, r''⟩
  cases oj <;> rfl

/-- Witness for the amended C6: `self` length 3 against `other` length 2
with a stream whose coin fires at indices 0 and 2 — the call fails with
`OutOfRange 2`. -/
theorem innerStep_oob_behavior_witness :
    ∃ f st' r',
      innerLoop cxId 0 st32.otherP.length false st32 rngFire02 =
        (Except.ok f, st', r') ∧
      st'.selfP = st32.selfP ∧ st'.otherP = st32.otherP ∧
      innerStepCx cxId st32 (rngConst 7) rngFire02 =
        match firstFire st32.otherP.length
            (st32.selfP.length - st32.otherP.length) r' with
        | (some j, _) => (Except.error (CxErr.outOfRange j), st')
        | (none, _) => (Except.ok f, st') :=
  innerStep_oob_behavior cxId st32 (rngConst 7) rngFire02 (by decide)

/-- C10: when `other.pipeline` is at least as long as `self.pipeline`,
`_crossover_inner_step` returns normally and never changes the composite
structure of either individual: both reference lists are exactly the ones
before the call (only step-internal state in the store can change, via
delegation to `Step.crossover`). -/
theorem innerStep_preserves_structure {β : Type}
    (cx : β → β → Rng → Bool × β × β × Rng) (st : CxState β) (rng e : Rng)
    (hle : st.selfP.length ≤ st.otherP.length) :
    (∃ b, (innerStepCx cx st rng e).1 = Except.ok b) ∧
      (innerStepCx cx st rng e).2.selfP = st.selfP ∧
      (innerStepCx cx st rng e).2.otherP = st.otherP := by
  obtain ⟨f, hf⟩ := innerLoop_ok cx st.selfP.length 0 false st e
    (fun k hk => ⟨by omega, by omega⟩)
  obtain ⟨hsp, hop⟩ := innerLoop_pipelines cx st.selfP.length 0 false st e
  exact ⟨⟨f, hf⟩, hsp, hop⟩

/-- Witness for C10 on equal-length pipelines of length 2. -/
theorem innerStep_preserves_structure_witness :
    (∃ b, (innerStepCx cxId st22 (rngConst 7) (rngConst 0)).1 =
        Except.ok b) ∧
      (innerStepCx cxId st22 (rngConst 7) (rngConst 0)).2.selfP =
        st22.selfP ∧
      (innerStepCx cxId st22 (rngConst 7) (rngConst 0)).2.otherP =
        st22.otherP :=
  innerStep_preserves_structure cxId st22 (rngConst 7) (rngConst 0)
    (by decide)

/-- C4: `_crossover` shuffles the two-strategy list and tries the
strategies in the shuffled order: if the first succeeds the call returns
its result untouched and the second strategy is never run (the result does
not depend on the second strategy's entropy `e2`); if the first reports
failure the call's result is exactly the second strategy's result; and the
call reports failure only when both strategies report failure. -/
theorem crossover_dispatch {β : Type} (cx : β → β → Rng → Bool × β × β × Rng)
    (st : CxState β) (rng e0 e1 e2 e2' : Rng) :
    ((runStrat cx (e0.shuffle2 CxStrat.swapRandom CxStrat.innerStep).1.1 st
        (e0.shuffle2 CxStrat.swapRandom CxStrat.innerStep).2 e1).1 =
          Except.ok true →
      crossover cx st rng e0 e1 e2 =
        runStrat cx (e0.shuffle2 CxStrat.swapRandom CxStrat.innerStep).1.1 st
          (e0.shuffle2 CxStrat.swapRandom CxStrat.innerStep).2 e1 ∧
      crossover cx st rng e0 e1 e2 = crossover cx st rng e0 e1 e2') ∧
    ((runStrat cx (e0.shuffle2 CxStrat.swapRandom CxStrat.innerStep).1.1 st
        (e0.shuffle2 CxStrat.swapRandom CxStrat.innerStep).2 e1).1 =
          Except.ok false →
      crossover cx st rng e0 e1 e2 =
        runStrat cx (e0.shuffle2 CxStrat.swapRandom CxStrat.innerStep).1.2
          (runStrat cx (e0.shuffle2 CxStrat.swapRandom CxStrat.innerStep).1.1
            st (e0.shuffle2 CxStrat.swapRandom CxStrat.innerStep).2 e1).2
          (e0.shuffle2 CxStrat.swapRandom CxStrat.innerStep).2 e2) ∧
    ((crossover cx st rng e0 e1 e2).1 = Except.ok false →
      (runStrat cx (e0.shuffle2 CxStrat.swapRandom CxStrat.innerStep).1.1 st
        (e0.shuffle2 CxStrat.swapRandom CxStrat.innerStep).2 e1).1 =
          Except.ok false ∧
      (runStrat cx (e0.shuffle2 CxStrat.swapRandom CxStrat.innerStep).1.2
        (runStrat cx (e0.shuffle2 CxStrat.swapRandom CxStrat.innerStep).1.1
          st (e0.shuffle2 CxStrat.swapRandom CxStrat.innerStep).2 e1).2
        (e0.shuffle2 CxStrat.swapRandom CxStrat.innerStep).2 e2).1 =
          Except.ok false) := by
  have hc : ∀ e2'' : Rng, crossover cx st rng e0 e1 e2'' =
      match runStrat cx (e0.shuffle2 CxStrat.swapRandom CxStrat.innerStep).1.1
          st (e0.shuffle2 CxStrat.swapRandom CxStrat.innerStep).2 e1 with
      | (Except.ok true, st1) => (Except.ok true, st1)
      | (Except.ok false, st1) =>
        runStrat cx (e0.shuffle2 CxStrat.swapRandom CxStrat.innerStep).1.2 st1
          (e0.shuffle2 CxStrat.swapRandom CxStrat.innerStep).2 e2''
      | (Except.error err, st1) => (Except.error err, st1) := fun _ => rfl
  rcases hF : runStrat cx (e0.shuffle2 CxStrat.swapRandom CxStrat.innerStep).1.1
      st (e0.shuffle2 CxStrat.swapRandom CxStrat.innerStep).2 e1 with ⟨fr, st1⟩
  rw [hF] at hc
  cases fr with
  | ok b =>
    cases b with
    | true =>
      refine ⟨fun h => ⟨?_, ?_⟩, fun h => ?_, fun h => ?_⟩
      · rw [hc e2]
      · rw [hc e2, hc e2']
      · simp at h
      · rw [hc e2] at h
        simp at h
    | false =>
      refine ⟨fun h => ⟨?_, ?_⟩, fun h => ?_, fun h => ?_⟩
      · simp at h
      · simp at h
      · rw [hc e2]
      · rw [hc e2] at h
        exact ⟨rfl, h⟩
  | error err =>
    refine ⟨fun h => ⟨?_, ?_⟩, fun h => ?_, fun h => ?_⟩
    · simp at h
    · simp at h
    · simp at h
    · rw [hc e2] at h
      simp at h

/-- Witness for C4: with a shuffle that keeps `swap-random-steps` first on
two non-empty singleton pipelines, the first strategy succeeds, the call
returns its result, and the result is independent of the second
strategy's entropy. -/
theorem crossover_dispatch_witness :
    crossover cxId st11 (rngConst 7) (rngConst 1) (rngConst 0) (rngConst 0) =
      runStrat cxId
        ((rngConst 1).shuffle2 CxStrat.swapRandom CxStrat.innerStep).1.1 st11
        ((rngConst 1).shuffle2 CxStrat.swapRandom CxStrat.innerStep).2
        (rngConst 0) ∧
    crossover cxId st11 (rngConst 7) (rngConst 1) (rngConst 0) (rngConst 0) =
      crossover cxId st11 (rngConst 7) (rngConst 1) (rngConst 0)
        (rngConst 5) :=
  (crossover_dispatch cxId st11 (rngConst 7) (rngConst 1) (rngConst 0)
    (rngConst 0) (rngConst 5)).1 rfl

/-- C7 (bug demonstration): a `_crossover` call that fails with an error
does not restore the pre-call state.  Here the shuffle runs
`_crossover_inner_step` first on `self` length 3 against `other` length 2;
the coin fires at index 0, the delegated `Step.crossover` bumps both step
states, and the coin then fires at the out-of-range index 2, raising
`OutOfRange 2` — yet step 0's internal state remains mutated (1 instead of
its pre-call 0). -/
theorem crossover_commits_partial_mutation :
    (crossover cxInc st32 (rngConst 7) (rngConst 0) rngFire02
        (rngConst 0)).1 = Except.error (CxErr.outOfRange 2) ∧
      (crossover cxInc st32 (rngConst 7) (rngConst 0) rngFire02
        (rngConst 0)).2.store 0 = 1 ∧
      st32.store 0 = 0 :=
  ⟨rfl, rfl, rfl⟩

/-- C8 (amended): the composite key is the fixed discriminator followed by
the steps' `unique_id`s in pipeline order, so two pipelines produce equal
keys exactly when their sequences of step identities are equal: equal
identity sequences (same content, same order) give equal keys, while any
change to the identity sequence — adding, removing, or a reordering that
changes the sequence, in particular swapping two steps with distinct
identities — changes the key.  (A reordering that fixes the identity
sequence cannot change the key.) -/
theorem uniqueId_eq_iff {α υ : Type} (stepUid : α → υ) (p q : List α) :
    uniqueId stepUid p = uniqueId stepUid q ↔
      p.map stepUid = q.map stepUid := by
  constructor
  · intro h
    have h1 : p.map (fun s => UTok.step (stepUid s)) =
        q.map (fun s => UTok.step (stepUid s)) := by
      have h2 := congrArg TupleIndex.elems h
      simpa [uniqueId] using h2
    have hinj : Function.Injective (fun u : υ => UTok.step u) := by
      intro a b hab
      simpa using hab
    have h3 : (p.map stepUid).map (fun u : υ => UTok.step u) =
        (q.map stepUid).map (fun u : υ => UTok.step u) := by
      simpa [List.map_map, Function.comp] using h1
    exact List.map_injective_iff.mpr hinj h3
  · intro h
    have h4 := congrArg (List.map (fun u : υ => UTok.step u)) h
    simp only [List.map_map] at h4
    simp [uniqueId, Function.comp]
    simpa [Function.comp] using h4

/-- C8 counterexample: reordering by itself does not always change the
key.  Two steps with equal `unique_id`s (both `"S"`) swapped in order give
a genuinely reordered pipeline (`[2, 1]` is `[1, 2]` reversed and differs
from it) whose composite key is unchanged. -/
theorem uniqueId_reorder_counterexample :
    ([2, 1] : List Nat) = ([1, 2] : List Nat).reverse ∧
      ([2, 1] : List Nat) ≠ [1, 2] ∧
      uniqueId (fun _ : Nat => "S") [1, 2] =
        uniqueId (fun _ : Nat => "S") [2, 1] :=
  ⟨rfl, by decide, rfl⟩
